import Mathlib

/-
Verification of the numerical core of the plotica chart engine.

The Rust sources are shallowly embedded as follows:
* f64 arithmetic that only uses +, -, *, /, min, max and comparisons is
  modelled over the rationals; the concrete inputs used by the claims are
  exactly representable, and on those inputs the rational model agrees with
  the IEEE-754 evaluation performed by the Rust code (every intermediate is
  exactly representable).
* the logarithmic scale needs log10, so that part is modelled over the reals
  with Real.logb 10.
* in-place mutation becomes explicit state passing: a method that mutates
  self and returns a value becomes a function returning a pair of the value
  and the updated record.
* a panic is modelled as the value none of an Option-typed result.
-/

namespace Plotica

/-! ## Motion primitive: src/animate.rs, AnimatedNumber

The field names match the Rust struct.  Durations are microseconds.
The process-wide ANIMATED_NUMBERS_COUNT counter is an instrumentation
side effect with no influence on any returned value and is not modelled. -/

structure AnimatedNumber where
  x0 : ℚ
  x1 : ℚ
  k : ℚ
  c : ℚ
  v0 : ℚ
  t0 : Option ℚ
  dt1 : ℚ
  dt2 : ℚ
  deriving Repr, DecidableEq

namespace AnimatedNumber

/-- Rust AnimatedNumber::custom. -/
def custom (initial_value dt1_us dt2_us : ℚ) : AnimatedNumber :=
  { x0 := initial_value, x1 := initial_value, k := 0, c := 0, v0 := 0,
    t0 := none, dt1 := dt1_us, dt2 := dt2_us }

/-- Rust AnimatedNumber::new: default durations dt1 = dt2 = 100000 microseconds. -/
def new (initial_value : ℚ) : AnimatedNumber :=
  custom initial_value 100000 100000

/-- Rust AnimatedNumber::get_value.  Mutates self (clears t0 when the query
detects completion), so it returns the value paired with the updated state. -/
def get_value (s : AnimatedNumber) (time_us : ℚ) : ℚ × AnimatedNumber :=
  match s.t0 with
  | none => (s.x1, s)
  | some t0 =>
    let us := time_us - t0
    if us ≤ s.dt1 then
      ((s.k * us * us / 2 + s.v0 * us) * (s.x1 - s.x0) + s.x0, s)
    else if s.dt2 + s.dt1 ≤ us then
      (s.x1, { s with t0 := none })
    else
      ((s.k * s.dt1 * s.dt1 / 2 + s.v0 * s.dt1 + s.c * min s.dt2 (us - s.dt1))
          * (s.x1 - s.x0) + s.x0, s)

/-- Rust AnimatedNumber::get_end_value. -/
def get_end_value (s : AnimatedNumber) : ℚ := s.x1

/-- Rust AnimatedNumber::set_value.  In the Some branch the Rust code first
runs self.x0 = self.get_value(time_us), whose side effect may clear t0, and
only then reads self.t0 to derive the carried-over velocity; the embedding
reproduces that ordering through the intermediate state s1. -/
def set_value (s : AnimatedNumber) (new_value : ℚ) (time_us : Option ℚ) :
    AnimatedNumber :=
  match time_us with
  | none => { s with t0 := none, x1 := new_value }
  | some t =>
    let r := s.get_value t
    let s1 := r.2
    let v0 : ℚ :=
      match s1.t0 with
      | some t0 => s1.v0 + s1.k * min s1.dt1 (t - t0)
      | none => 0
    let k := (1 - v0 * (s1.dt1 + s1.dt2)) / (s1.dt1 * (s1.dt1 * (1/2) + s1.dt2))
    { s1 with x0 := r.1, x1 := new_value, v0 := v0, k := k,
              c := k * s1.dt1 + v0, t0 := some t }

end AnimatedNumber


end Plotica

namespace Plotica

/-! ## Claim theorems about the motion primitive -/

/-- C1: the concrete scenario of the spec (and of the in-repo test
test_animated_number): AnimatedNumber::new(1.0) with the default durations,
set_value(0.0, Some(1000000)).  The claim expects get_value(1200000) to be
about 0.9216 and get_value(1500000) about 0.5882, but with the defaults
dt1 = dt2 = 100000 the animation is already finished at time 1200000, so both
queries return 0.  This theorem evaluates the code on the failing input,
querying sequentially as the test does. -/
theorem c1_new_default_durations_finish_early :
    (((AnimatedNumber.new 1).set_value 0 (some 1000000)).get_value 1200000).1
      = 0 ∧
    ((((AnimatedNumber.new 1).set_value 0 (some 1000000)).get_value
        1200000).2.get_value 1500000).1 = 0 ∧
    (((((AnimatedNumber.new 1).set_value 0 (some 1000000)).get_value
        1200000).2.get_value 1500000).2.get_value 2000000).1 = 0 := by
  norm_num [AnimatedNumber.new, AnimatedNumber.custom, AnimatedNumber.set_value,
    AnimatedNumber.get_value, min_def]

/-- Companion fact for C1: the profile asserted by the spec scenario and by
the in-repo test corresponds to durations dt1 = 300000, dt2 = 700000
(AnimatedNumber::custom), under which the queried values are exactly
47/51 = 0.92156862745…, 10/17 = 0.58823529411… and 0. -/
theorem c1_documented_profile_needs_custom_durations :
    (((AnimatedNumber.custom 1 300000 700000).set_value 0
        (some 1000000)).get_value 1200000).1 = 47 / 51 ∧
    ((((AnimatedNumber.custom 1 300000 700000).set_value 0
        (some 1000000)).get_value 1200000).2.get_value 1500000).1 = 10 / 17 ∧
    (((((AnimatedNumber.custom 1 300000 700000).set_value 0
        (some 1000000)).get_value 1200000).2.get_value 1500000).2.get_value
      2000000).1 = 0 := by
  norm_num [AnimatedNumber.new, AnimatedNumber.custom, AnimatedNumber.set_value,
    AnimatedNumber.get_value, min_def]

/-! Helper lemmas: get_value never changes the duration fields, and the fields
of the state produced by a live set_value. -/

lemma get_value_snd_dt1 (s : AnimatedNumber) (t : ℚ) :
    ((s.get_value t).2).dt1 = s.dt1 := by
  unfold AnimatedNumber.get_value
  rcases h : s.t0 with _ | t0
  · rfl
  · dsimp only
    split
    · rfl
    · split <;> rfl

lemma get_value_snd_dt2 (s : AnimatedNumber) (t : ℚ) :
    ((s.get_value t).2).dt2 = s.dt2 := by
  unfold AnimatedNumber.get_value
  rcases h : s.t0 with _ | t0
  · rfl
  · dsimp only
    split
    · rfl
    · split <;> rfl

lemma set_value_some_t0 (s : AnimatedNumber) (v t : ℚ) :
    (s.set_value v (some t)).t0 = some t := rfl

lemma set_value_some_x1 (s : AnimatedNumber) (v t : ℚ) :
    (s.set_value v (some t)).x1 = v := rfl

lemma set_value_some_x0 (s : AnimatedNumber) (v t : ℚ) :
    (s.set_value v (some t)).x0 = (s.get_value t).1 := rfl

lemma set_value_some_dt1 (s : AnimatedNumber) (v t : ℚ) :
    (s.set_value v (some t)).dt1 = s.dt1 := by
  have : (s.set_value v (some t)).dt1 = ((s.get_value t).2).dt1 := rfl
  rw [this, get_value_snd_dt1]

lemma set_value_some_dt2 (s : AnimatedNumber) (v t : ℚ) :
    (s.set_value v (some t)).dt2 = s.dt2 := by
  have : (s.set_value v (some t)).dt2 = ((s.get_value t).2).dt2 := rfl
  rw [this, get_value_snd_dt2]

/-- Helper: a live query after the combined duration returns x1 and clears t0. -/
lemma get_value_of_completed (s : AnimatedNumber) (t0 t : ℚ)
    (h : s.t0 = some t0) (h1 : ¬ t - t0 ≤ s.dt1) (h2 : s.dt2 + s.dt1 ≤ t - t0) :
    s.get_value t = (s.x1, { s with t0 := none }) := by
  unfold AnimatedNumber.get_value
  rw [h]
  simp [h1, h2]

/-- Helper: a live query exactly at the start time returns x0. -/
lemma get_value_at_start (s : AnimatedNumber) (t0 : ℚ)
    (h : s.t0 = some t0) (hdt1 : 0 ≤ s.dt1) :
    (s.get_value t0).1 = s.x0 := by
  unfold AnimatedNumber.get_value
  rw [h]
  simp only [sub_self]
  rw [if_pos hdt1]
  ring_nf

/-- C6: once an animation is started at t0 by set_value(target, Some(t0)) on a
primitive with positive phase durations, every query at or after
t0 + dt1 + dt2 returns the end value exactly and clears the start timestamp
(the primitive then reports the end value forever until re-targeted). -/
theorem c6_get_value_settles_exactly_at_end
    (s : AnimatedNumber) (target t0 t : ℚ)
    (_hdt1 : 0 < s.dt1) (hdt2 : 0 < s.dt2)
    (ht : t0 + s.dt1 + s.dt2 ≤ t) :
    ((s.set_value target (some t0)).get_value t).1 = target ∧
    ((s.set_value target (some t0)).get_value t).2.t0 = none := by
  set s' := s.set_value target (some t0) with hs'
  have h0 : s'.t0 = some t0 := set_value_some_t0 s target t0
  have hx1 : s'.x1 = target := set_value_some_x1 s target t0
  have hd1 : s'.dt1 = s.dt1 := set_value_some_dt1 s target t0
  have hd2 : s'.dt2 = s.dt2 := set_value_some_dt2 s target t0
  have h1 : ¬ t - t0 ≤ s'.dt1 := by rw [hd1]; linarith
  have h2 : s'.dt2 + s'.dt1 ≤ t - t0 := by rw [hd1, hd2]; linarith
  rw [get_value_of_completed s' t0 t h0 h1 h2]
  exact ⟨hx1, rfl⟩

/-- C6 witness: a concrete instantiation of the settling theorem. -/
theorem c6_witness :
    (((AnimatedNumber.new 1).set_value 0 (some 1000000)).get_value 1300000).1 = 0 ∧
    (((AnimatedNumber.new 1).set_value 0 (some 1000000)).get_value 1300000).2.t0 =
      none :=
  c6_get_value_settles_exactly_at_end (AnimatedNumber.new 1) 0 1000000 1300000
    (by norm_num [AnimatedNumber.new, AnimatedNumber.custom])
    (by norm_num [AnimatedNumber.new, AnimatedNumber.custom])
    (by norm_num [AnimatedNumber.new, AnimatedNumber.custom])

/-- C8: position is C0-continuous at the re-target instant: querying at the
re-target time immediately after set_value(new_target, Some(t)) returns the
same value the primitive showed at time t immediately before the call, for
any state (settled or mid-flight) with a nonnegative acceleration-phase
duration. -/
theorem c8_retarget_is_position_continuous
    (s : AnimatedNumber) (target t : ℚ) (hdt1 : 0 ≤ s.dt1) :
    ((s.set_value target (some t)).get_value t).1 = (s.get_value t).1 := by
  have h0 : (s.set_value target (some t)).t0 = some t := set_value_some_t0 s target t
  have hd1 : 0 ≤ (s.set_value target (some t)).dt1 := by
    rw [set_value_some_dt1]; exact hdt1
  rw [get_value_at_start (s.set_value target (some t)) t h0 hd1,
    set_value_some_x0]

/-- C8 witness: re-targeting a primitive mid-flight at time 1100000 preserves
the displayed value at that instant. -/
theorem c8_witness :
    ((((AnimatedNumber.new 1).set_value 0 (some 1000000)).set_value 5
        (some 1100000)).get_value 1100000).1 =
      (((AnimatedNumber.new 1).set_value 0 (some 1000000)).get_value 1100000).1 :=
  c8_retarget_is_position_continuous
    ((AnimatedNumber.new 1).set_value 0 (some 1000000)) 5 1100000
    (by norm_num [AnimatedNumber.set_value, AnimatedNumber.new,
      AnimatedNumber.custom, AnimatedNumber.get_value])

/-! ## Range-indexed series: src/data_set.rs

DataPoint, DataSetMeta, DataSet and the boundary binary searches.  Rust
indices (usize) become Nat; the guarded decrements of the source are
reproduced literally, so the Nat truncation of subtraction is never reached
with a zero operand.  A panic (slice out of range, unwrap of None) is an
outer none. -/

structure DataPoint where
  coord : ℚ
  value : ℚ
  deriving Repr, DecidableEq

structure DataSetMeta where
  min : ℚ
  p25 : ℚ
  p50 : ℚ
  p75 : ℚ
  max : ℚ
  deriving Repr, DecidableEq

namespace DataSetMeta

/-- Rust truncation of a nonnegative f64 to usize (the percentile index is
always nonnegative; Rust saturates negative values to 0 and Int.toNat does
the same). -/
def rustToUsize (q : ℚ) : ℕ := (⌊q⌋).toNat

/-- Rust DataSetMeta::percentile.  The two unwrapped element accesses are
modelled with Option, so an out-of-range access becomes none (a panic). -/
def percentile (values : List ℚ) (p : ℚ) (max_index : ℕ) : Option ℚ :=
  let index : ℚ := (max_index : ℚ) * p
  let left_index : ℕ := rustToUsize index
  match values.get? left_index with
  | none => none
  | some left_value =>
    if left_index = max_index then some left_value
    else
      match values.get? (left_index + 1) with
      | none => none
      | some right_value =>
        some (left_value + (right_value - left_value) * (index - (left_index : ℚ)))

/-- Rust DataSetMeta::from_data_points: sort a copy of the value column,
read off min, quartiles and max.  On an empty input the Rust code panics
(values.len() - 1 underflow, or unwrap of None): modelled as none. -/
def from_data_points (points : List DataPoint) : Option DataSetMeta :=
  let values := List.insertionSort (· ≤ ·) (points.map DataPoint.value)
  let max_index := values.length - 1
  match values.get? 0, percentile values (1/4) max_index,
      percentile values (1/2) max_index, percentile values (3/4) max_index,
      values.get? max_index with
  | some mn, some q25, some q50, some q75, some mx =>
    some { min := mn, p25 := q25, p50 := q50, p75 := q75, max := mx }
  | _, _, _, _, _ => none

end DataSetMeta

structure DataSet where
  name : String
  data_points : List DataPoint
  meta : DataSetMeta
  rgb : ℕ × ℕ × ℕ
  alpha : AnimatedNumber

namespace DataSet

/-- Rust DataSet::new.  The only fallible step is the meta computation
(panics on an empty input); the points are stored verbatim, with no
validation of any kind (in particular no duplicate-coordinate check). -/
def new (name : String) (rgb : ℕ × ℕ × ℕ) (data_points : List DataPoint) :
    Option DataSet :=
  (DataSetMeta.from_data_points data_points).map fun meta =>
    { name := name, data_points := data_points, meta := meta, rgb := rgb,
      alpha := AnimatedNumber.new 1 }

/-- Coordinate of the element at an index; the searches only access indices
that are in range, so the default is never produced on a reachable path
(mirrors the .unwrap() of the source). -/
def coordAt (data : List DataPoint) (i : ℕ) : ℚ :=
  ((data.get? i).getD { coord := 0, value := 0 }).coord

/-- Loop of Rust DataSet::bin_search_left_bound, with explicit fuel.  The
result some res models the loop finishing with the Rust return value res;
none models running out of fuel (proved unreachable for fuel at least
right_idx + 2 - left_idx, theorem c10). -/
def lbLoop (data : List DataPoint) (x : ℚ) :
    ℕ → ℕ → ℕ → Option (Option ℕ)
  | 0, _, _ => none
  | fuel + 1, left_idx, right_idx =>
    if left_idx ≤ right_idx then
      let middle_idx := (left_idx + right_idx) / 2
      let max_idx := data.length - 1
      let cur := coordAt data middle_idx
      if x ≤ cur ∧ (middle_idx = 0 ∨ coordAt data (middle_idx - 1) < x) then
        some (some middle_idx)
      else if x ≤ cur then
        if middle_idx = 0 then some (some 0)
        else lbLoop data x fuel left_idx (middle_idx - 1)
      else
        if middle_idx = max_idx then some none
        else lbLoop data x fuel (middle_idx + 1) right_idx
    else some none

/-- Loop of Rust DataSet::bin_search_right_bound, with explicit fuel. -/
def rbLoop (data : List DataPoint) (x : ℚ) :
    ℕ → ℕ → ℕ → Option (Option ℕ)
  | 0, _, _ => none
  | fuel + 1, left_idx, right_idx =>
    if left_idx ≤ right_idx then
      let middle_idx := (left_idx + right_idx) / 2
      let max_idx := data.length - 1
      let cur := coordAt data middle_idx
      if cur ≤ x ∧ (middle_idx = max_idx ∨ x < coordAt data (middle_idx + 1)) then
        some (some middle_idx)
      else if cur ≤ x then
        if middle_idx = max_idx then some (some max_idx)
        else rbLoop data x fuel (middle_idx + 1) right_idx
      else
        if middle_idx = 0 then some none
        else rbLoop data x fuel left_idx (middle_idx - 1)
    else some none

/-- Rust DataSet::bin_search_left_bound: smallest index whose coordinate is
at least x, for sorted data.  Fuel data.length + 1 is sufficient (c10), so
the fuel-exhaustion branch is dead. -/
def bin_search_left_bound (ds : DataSet) (x : ℚ) : Option ℕ :=
  let data := ds.data_points
  if data.isEmpty then none
  else
    match lbLoop data x (data.length + 1) 0 (data.length - 1) with
    | some res => res
    | none => none

/-- Rust DataSet::bin_search_right_bound: largest index whose coordinate is
at most x, for sorted data. -/
def bin_search_right_bound (ds : DataSet) (x : ℚ) : Option ℕ :=
  let data := ds.data_points
  if data.isEmpty then none
  else
    match rbLoop data x (data.length + 1) 0 (data.length - 1) with
    | some res => res
    | none => none

/-- Rust slice indexing data[l..r1]: some sub-list if the range is valid,
none (a panic) otherwise. -/
def rustSliceRange (data : List DataPoint) (l r1 : ℕ) : Option (List DataPoint) :=
  if l ≤ r1 ∧ r1 ≤ data.length then some ((data.drop l).take (r1 - l)) else none

/-- Rust DataSet::slice_by_coord.  Outer some is a normal return (carrying
the Option result of the method), outer none is a panic inside the slice
indexing. -/
def slice_by_coord (ds : DataSet) (coord_start coord_end : ℚ) :
    Option (Option (List DataPoint)) :=
  match ds.bin_search_left_bound coord_start with
  | some left_idx =>
    match ds.bin_search_right_bound coord_end with
    | some right_idx =>
      (rustSliceRange ds.data_points left_idx (right_idx + 1)).map some
    | none => some none
  | none => some none

end DataSet

/-- Sortedness by coordinate, index form (weakly increasing). -/
def SortedCoords (data : List DataPoint) : Prop :=
  ∀ i j, i ≤ j → j < data.length → DataSet.coordAt data i ≤ DataSet.coordAt data j

/-- Specification of the value returned by the left-bound search: some a is
the smallest index whose coordinate is at least x, none means every
coordinate is below x. -/
def IsLeftBoundRes (data : List DataPoint) (x : ℚ) : Option ℕ → Prop
  | some a => a < data.length ∧ x ≤ DataSet.coordAt data a ∧
      ∀ i, i < a → DataSet.coordAt data i < x
  | none => ∀ i, i < data.length → DataSet.coordAt data i < x

/-- Specification of the value returned by the right-bound search: some b is
the largest index whose coordinate is at most x, none means every
coordinate is above x. -/
def IsRightBoundRes (data : List DataPoint) (x : ℚ) : Option ℕ → Prop
  | some b => b < data.length ∧ DataSet.coordAt data b ≤ x ∧
      ∀ i, b < i → i < data.length → x < DataSet.coordAt data i
  | none => ∀ i, i < data.length → x < DataSet.coordAt data i

/-- Loop invariant proof for the left-bound loop: on sorted data, with every
index below left_idx strictly below x, every index above right_idx at least
x, and the window's right end either the last index or itself at least x,
the loop finishes within right_idx + 2 - left_idx iterations and returns the
first index whose coordinate is at least x (none if there is none). -/
lemma lbLoop_spec (data : List DataPoint) (x : ℚ) (hs : SortedCoords data) :
    ∀ fuel l r, l ≤ r → r < data.length →
      (∀ i, i < l → DataSet.coordAt data i < x) →
      (∀ i, r < i → i < data.length → x ≤ DataSet.coordAt data i) →
      (r = data.length - 1 ∨ x ≤ DataSet.coordAt data r) →
      r + 2 - l ≤ fuel →
      ∃ res, DataSet.lbLoop data x fuel l r = some res ∧
        IsLeftBoundRes data x res := by
  intro fuel
  induction fuel with
  | zero => intro l r hlr _ _ _ _ hfuel; omega
  | succ fuel ih =>
    intro l r hlr hrlen hA hB hC hfuel
    rw [DataSet.lbLoop, if_pos hlr]
    dsimp only
    set m := (l + r) / 2 with hm
    have hlm : l ≤ m := by omega
    have hmr : m ≤ r := by omega
    have hmlen : m < data.length := lt_of_le_of_lt hmr hrlen
    by_cases h1 : x ≤ DataSet.coordAt data m ∧
        (m = 0 ∨ DataSet.coordAt data (m - 1) < x)
    · rw [if_pos h1]
      refine ⟨some m, rfl, hmlen, h1.1, ?_⟩
      intro i him
      rcases h1.2 with h0 | hprev
      · omega
      · exact lt_of_le_of_lt (hs i (m - 1) (by omega) (by omega)) hprev
    · rw [if_neg h1]
      by_cases h2 : x ≤ DataSet.coordAt data m
      · rw [if_pos h2]
        have hm0 : m ≠ 0 := fun h0 => h1 ⟨h2, Or.inl h0⟩
        rw [if_neg hm0]
        have hprev : x ≤ DataSet.coordAt data (m - 1) := by
          by_contra hpx
          exact h1 ⟨h2, Or.inr (not_le.mp hpx)⟩
        have hlm1 : l ≤ m - 1 := by
          rcases Nat.lt_or_ge l m with h | h
          · omega
          · exfalso
            exact absurd hprev (not_le.mpr (hA (m - 1) (by omega)))
        refine ih l (m - 1) hlm1 (by omega) hA ?_ (Or.inr hprev) (by omega)
        intro i hi hilen
        exact le_trans h2 (hs m i (by omega) hilen)
      · rw [if_neg h2]
        have hcx : DataSet.coordAt data m < x := not_le.mp h2
        by_cases h3 : m = data.length - 1
        · rw [if_pos h3]
          refine ⟨none, rfl, ?_⟩
          intro i hilen
          exact lt_of_le_of_lt (hs i m (by omega) hmlen) hcx
        · rw [if_neg h3]
          have hmr' : m < r := by
            rcases Nat.lt_or_ge m r with h | h
            · exact h
            · exfalso
              have hmr2 : m = r := le_antisymm hmr h
              rcases hC with hc1 | hc2
              · exact h3 (hmr2 ▸ hc1)
              · exact h2 (hmr2 ▸ hc2)
          refine ih (m + 1) r (by omega) hrlen ?_ hB hC (by omega)
          intro i hi
          exact lt_of_le_of_lt (hs i m (by omega) hmlen) hcx

/-- Loop invariant proof for the right-bound loop, mirror image of
lbLoop_spec. -/
lemma rbLoop_spec (data : List DataPoint) (x : ℚ) (hs : SortedCoords data) :
    ∀ fuel l r, l ≤ r → r < data.length →
      (∀ i, i < l → DataSet.coordAt data i ≤ x) →
      (∀ i, r < i → i < data.length → x < DataSet.coordAt data i) →
      (l = 0 ∨ DataSet.coordAt data l ≤ x) →
      r + 2 - l ≤ fuel →
      ∃ res, DataSet.rbLoop data x fuel l r = some res ∧
        IsRightBoundRes data x res := by
  intro fuel
  induction fuel with
  | zero => intro l r hlr _ _ _ _ hfuel; omega
  | succ fuel ih =>
    intro l r hlr hrlen hA hB hC hfuel
    rw [DataSet.rbLoop, if_pos hlr]
    dsimp only
    set m := (l + r) / 2 with hm
    have hlm : l ≤ m := by omega
    have hmr : m ≤ r := by omega
    have hmlen : m < data.length := lt_of_le_of_lt hmr hrlen
    by_cases h1 : DataSet.coordAt data m ≤ x ∧
        (m = data.length - 1 ∨ x < DataSet.coordAt data (m + 1))
    · rw [if_pos h1]
      refine ⟨some m, rfl, hmlen, h1.1, ?_⟩
      intro i him hilen
      rcases h1.2 with hmax | hnext
      · omega
      · exact lt_of_lt_of_le hnext (hs (m + 1) i (by omega) hilen)
    · rw [if_neg h1]
      by_cases h2 : DataSet.coordAt data m ≤ x
      · rw [if_pos h2]
        have hmmax : m ≠ data.length - 1 := fun h0 => h1 ⟨h2, Or.inl h0⟩
        rw [if_neg hmmax]
        have hnext : DataSet.coordAt data (m + 1) ≤ x := by
          by_contra hpx
          exact h1 ⟨h2, Or.inr (not_le.mp hpx)⟩
        have hm1r : m + 1 ≤ r := by
          rcases Nat.lt_or_ge m r with h | h
          · omega
          · exfalso
            have hmr2 : m = r := le_antisymm hmr h
            have : x < DataSet.coordAt data (m + 1) :=
              hB (m + 1) (by omega) (by omega)
            exact absurd hnext (not_le.mpr this)
        refine ih (m + 1) r hm1r hrlen ?_ hB (Or.inr hnext) (by omega)
        intro i hi
        exact le_trans (hs i m (by omega) hmlen) h2
      · rw [if_neg h2]
        have hcx : x < DataSet.coordAt data m := not_le.mp h2
        by_cases h3 : m = 0
        · rw [if_pos h3]
          refine ⟨none, rfl, ?_⟩
          intro i hilen
          exact lt_of_lt_of_le hcx (hs m i (by omega) hilen)
        · rw [if_neg h3]
          have hlm' : l < m := by
            rcases Nat.lt_or_ge l m with h | h
            · exact h
            · exfalso
              have hml : l = m := le_antisymm hlm h
              rcases hC with hc1 | hc2
              · exact h3 (hml ▸ hc1)
              · exact h2 (hml ▸ hc2)
          refine ih l (m - 1) (by omega) (by omega) hA ?_ hC (by omega)
          intro i hi hilen
          exact lt_of_lt_of_le hcx (hs m i (by omega) hilen)

/-- Entry-point specification of bin_search_left_bound on sorted non-empty
data. -/
lemma bin_search_left_bound_spec (ds : DataSet) (x : ℚ)
    (hs : SortedCoords ds.data_points) (hne : ds.data_points ≠ []) :
    IsLeftBoundRes ds.data_points x (ds.bin_search_left_bound x) := by
  have hlen : 0 < ds.data_points.length := List.length_pos.mpr hne
  obtain ⟨res, hres, hspec⟩ :=
    lbLoop_spec ds.data_points x hs (ds.data_points.length + 1) 0
      (ds.data_points.length - 1) (by omega) (by omega)
      (fun i hi => absurd hi (Nat.not_lt_zero i))
      (fun i h1 h2 => absurd h1 (by omega))
      (Or.inl rfl) (by omega)
  have hemp : ds.data_points.isEmpty = false := by
    simp [List.isEmpty_iff, hne]
  rw [DataSet.bin_search_left_bound]
  simp only [hemp, Bool.false_eq_true, if_false, hres]
  exact hspec

/-- Entry-point specification of bin_search_right_bound on sorted non-empty
data. -/
lemma bin_search_right_bound_spec (ds : DataSet) (x : ℚ)
    (hs : SortedCoords ds.data_points) (hne : ds.data_points ≠ []) :
    IsRightBoundRes ds.data_points x (ds.bin_search_right_bound x) := by
  have hlen : 0 < ds.data_points.length := List.length_pos.mpr hne
  obtain ⟨res, hres, hspec⟩ :=
    rbLoop_spec ds.data_points x hs (ds.data_points.length + 1) 0
      (ds.data_points.length - 1) (by omega) (by omega)
      (fun i hi => absurd hi (Nat.not_lt_zero i))
      (fun i h1 h2 => absurd h1 (by omega))
      (Or.inl rfl) (by omega)
  have hemp : ds.data_points.isEmpty = false := by
    simp [List.isEmpty_iff, hne]
  rw [DataSet.bin_search_right_bound]
  simp only [hemp, Bool.false_eq_true, if_false, hres]
  exact hspec


/-- Fuel sufficiency for the left-bound loop on arbitrary (not necessarily
sorted) data: with positive fuel of at least right_idx + 2 - left_idx the
loop never exhausts its fuel, because every non-returning iteration strictly
shrinks the search window. -/
lemma lbLoop_total (data : List DataPoint) (x : ℚ) :
    ∀ fuel l r, 0 < fuel → r + 2 - l ≤ fuel →
      ∃ res, DataSet.lbLoop data x fuel l r = some res := by
  intro fuel
  induction fuel with
  | zero => intro l r h0 _; omega
  | succ fuel ih =>
    intro l r _ hfuel
    rw [DataSet.lbLoop]
    by_cases hlr : l ≤ r
    · rw [if_pos hlr]
      dsimp only
      set m := (l + r) / 2 with hm
      have hlm : l ≤ m := by omega
      have hmr : m ≤ r := by omega
      by_cases h1 : x ≤ DataSet.coordAt data m ∧
          (m = 0 ∨ DataSet.coordAt data (m - 1) < x)
      · rw [if_pos h1]; exact ⟨some m, rfl⟩
      · rw [if_neg h1]
        by_cases h2 : x ≤ DataSet.coordAt data m
        · rw [if_pos h2]
          by_cases hm0 : m = 0
          · rw [if_pos hm0]; exact ⟨some 0, rfl⟩
          · rw [if_neg hm0]
            exact ih l (m - 1) (by omega) (by omega)
        · rw [if_neg h2]
          by_cases h3 : m = data.length - 1
          · rw [if_pos h3]; exact ⟨none, rfl⟩
          · rw [if_neg h3]
            exact ih (m + 1) r (by omega) (by omega)
    · rw [if_neg hlr]; exact ⟨none, rfl⟩

/-- Fuel sufficiency for the right-bound loop on arbitrary data. -/
lemma rbLoop_total (data : List DataPoint) (x : ℚ) :
    ∀ fuel l r, 0 < fuel → r + 2 - l ≤ fuel →
      ∃ res, DataSet.rbLoop data x fuel l r = some res := by
  intro fuel
  induction fuel with
  | zero => intro l r h0 _; omega
  | succ fuel ih =>
    intro l r _ hfuel
    rw [DataSet.rbLoop]
    by_cases hlr : l ≤ r
    · rw [if_pos hlr]
      dsimp only
      set m := (l + r) / 2 with hm
      have hlm : l ≤ m := by omega
      have hmr : m ≤ r := by omega
      by_cases h1 : DataSet.coordAt data m ≤ x ∧
          (m = data.length - 1 ∨ x < DataSet.coordAt data (m + 1))
      · rw [if_pos h1]; exact ⟨some m, rfl⟩
      · rw [if_neg h1]
        by_cases h2 : DataSet.coordAt data m ≤ x
        · rw [if_pos h2]
          by_cases h3 : m = data.length - 1
          · rw [if_pos h3]; exact ⟨some (data.length - 1), rfl⟩
          · rw [if_neg h3]
            exact ih (m + 1) r (by omega) (by omega)
        · rw [if_neg h2]
          by_cases hm0 : m = 0
          · rw [if_pos hm0]; exact ⟨none, rfl⟩
          · rw [if_neg hm0]
            exact ih l (m - 1) (by omega) (by omega)
    · rw [if_neg hlr]; exact ⟨none, rfl⟩

/-- C10: both boundary binary-search loops terminate on every input: for any
data-point vector (of any contents, sorted or not), any query, and any
window, a fuel budget of right_idx + 2 - left_idx iterations (at least one)
is enough for the loop to return, because every iteration either returns or
strictly shrinks the window, and the guarded index arithmetic stays inside
the window (in particular the decrement at middle_idx = 0 and the increment
at middle_idx = max_idx are never reached, both branches returning first).
In particular fuel data.length + 1 used by the entry points always
suffices. -/
theorem c10_bin_search_loops_terminate (data : List DataPoint) (x : ℚ)
    (l r fuel : ℕ) (h0 : 0 < fuel) (hfuel : r + 2 - l ≤ fuel) :
    (∃ res, DataSet.lbLoop data x fuel l r = some res) ∧
    (∃ res, DataSet.rbLoop data x fuel l r = some res) :=
  ⟨lbLoop_total data x fuel l r h0 hfuel,
   rbLoop_total data x fuel l r h0 hfuel⟩

/-- C10 witness: concrete termination of the full-range searches on a
three-point vector (fuel = length + 1 = 4 as used by the entry points). -/
theorem c10_witness :
    (∃ res, DataSet.lbLoop [⟨1,0⟩,⟨2,0⟩,⟨3,0⟩] (5/2) 4 0 2 = some res) ∧
    (∃ res, DataSet.rbLoop [⟨1,0⟩,⟨2,0⟩,⟨3,0⟩] (5/2) 4 0 2 = some res) :=
  c10_bin_search_loops_terminate [⟨1,0⟩,⟨2,0⟩,⟨3,0⟩] (5/2) 0 2 4
    (by decide) (by decide)

/-- Bridge from the index form of coordAt to list indexing, inside bounds. -/
lemma coordAt_eq_getElem (data : List DataPoint) (i : ℕ) (h : i < data.length) :
    DataSet.coordAt data i = data[i].coord := by
  simp [DataSet.coordAt, List.get?_eq_getElem?, List.getElem?_eq_getElem, h]

/-- Bridge from the decidable pairwise form of sortedness to the index form. -/
lemma sortedCoords_of_pairwise (data : List DataPoint)
    (h : data.Pairwise (fun p q => p.coord ≤ q.coord)) : SortedCoords data := by
  intro i j hij hj
  rw [coordAt_eq_getElem data i (by omega), coordAt_eq_getElem data j hj]
  rcases Nat.lt_or_ge i j with hlt | hge
  · exact List.pairwise_iff_getElem.mp h i j (by omega) hj hlt
  · have : i = j := by omega
    subst this
    exact le_refl _

/-- Compatibility of the two boundary results on sorted data: the left index
is at most the right index plus one, and the slice end right + 1 is a valid
bound, so the Rust slice data[left..right + 1] cannot panic. -/
lemma slice_bounds_compatible (ds : DataSet) (s e : ℚ)
    (hs : SortedCoords ds.data_points) (hne : ds.data_points ≠ [])
    (hse : s ≤ e) (l r : ℕ)
    (hl : ds.bin_search_left_bound s = some l)
    (hr : ds.bin_search_right_bound e = some r) :
    l ≤ r + 1 ∧ r + 1 ≤ ds.data_points.length := by
  have hL := bin_search_left_bound_spec ds s hs hne
  have hR := bin_search_right_bound_spec ds e hs hne
  rw [hl] at hL
  rw [hr] at hR
  simp only [IsLeftBoundRes] at hL
  simp only [IsRightBoundRes] at hR
  obtain ⟨hllen, hsl, hbelow⟩ := hL
  obtain ⟨hrlen, hre, habove⟩ := hR
  refine ⟨?_, by omega⟩
  by_contra hcon
  push_neg at hcon
  have h1 : DataSet.coordAt ds.data_points (r + 1) < s := hbelow (r + 1) (by omega)
  have h2 : e < DataSet.coordAt ds.data_points (r + 1) :=
    habove (r + 1) (by omega) (by omega)
  linarith

/-- Concrete two-point series used by the C2 counterexample and witness. -/
def pairSeries : DataSet :=
  { name := "pair", data_points := [⟨1,0⟩,⟨5,0⟩],
    meta := ⟨0,0,0,0,0⟩, rgb := (0,0,0), alpha := AnimatedNumber.new 1 }

/-- C2 counterexample: the two-point sorted series [(1,0),(5,0)] with the
window [2,3]: both boundary searches succeed (left index 1, right index 0),
the left index exceeds the right index, and slice_by_coord returns
Some of an empty sub-range, not None as the claim states. -/
theorem c2_counterexample :
    pairSeries.bin_search_left_bound 2 = some 1 ∧
    pairSeries.bin_search_right_bound 3 = some 0 ∧
    pairSeries.slice_by_coord 2 3 = some (some []) ∧
    pairSeries.slice_by_coord 2 3 ≠ some none := by
  refine ⟨?_, ?_, ?_, ?_⟩ <;>
    norm_num [pairSeries, DataSet.slice_by_coord, DataSet.bin_search_left_bound,
      DataSet.bin_search_right_bound, DataSet.lbLoop, DataSet.rbLoop,
      DataSet.coordAt, DataSet.rustSliceRange, List.get?,
      Option.some_ne_none]

/-- C2 as amended: on a non-empty sorted series with start at most end,
slice_by_coord returns None exactly when one of the boundary searches fails;
when both succeed with the left index exceeding the right index (no point in
the window) it returns Some of the empty sub-range rather than None, and it
never panics (the slice bounds are always valid). -/
theorem c2_slice_none_only_on_missing_bound (ds : DataSet) (s e : ℚ)
    (hs : SortedCoords ds.data_points) (hne : ds.data_points ≠ [])
    (hse : s ≤ e) :
    (ds.bin_search_left_bound s = none ∨ ds.bin_search_right_bound e = none →
      ds.slice_by_coord s e = some none) ∧
    (∀ l r, ds.bin_search_left_bound s = some l →
      ds.bin_search_right_bound e = some r → r < l →
      ds.slice_by_coord s e = some (some [])) ∧
    ds.slice_by_coord s e ≠ none := by
  refine ⟨?_, ?_, ?_⟩
  · intro hor
    rcases hor with h | h
    · simp [DataSet.slice_by_coord, h]
    · cases hleft : ds.bin_search_left_bound s with
      | none => simp [DataSet.slice_by_coord, hleft]
      | some l => simp [DataSet.slice_by_coord, hleft, h]
  · intro l r hl hr hrl
    obtain ⟨hlr1, hr1len⟩ := slice_bounds_compatible ds s e hs hne hse l r hl hr
    have hleq : l = r + 1 := by omega
    simp only [DataSet.slice_by_coord, hl, hr, DataSet.rustSliceRange]
    rw [if_pos ⟨by omega, hr1len⟩]
    simp [hleq]
  · cases hleft : ds.bin_search_left_bound s with
    | none => simp [DataSet.slice_by_coord, hleft]
    | some l =>
      cases hright : ds.bin_search_right_bound e with
      | none => simp [DataSet.slice_by_coord, hleft, hright]
      | some r =>
        obtain ⟨hlr1, hr1len⟩ :=
          slice_bounds_compatible ds s e hs hne hse l r hleft hright
        simp only [DataSet.slice_by_coord, hleft, hright, DataSet.rustSliceRange]
        rw [if_pos ⟨hlr1, hr1len⟩]
        simp

/-- C2 witness: the amended statement instantiated on the two-point series
and the empty window of the counterexample. -/
theorem c2_witness :
    (pairSeries.bin_search_left_bound 2 = none ∨
      pairSeries.bin_search_right_bound 3 = none →
      pairSeries.slice_by_coord 2 3 = some none) ∧
    (∀ l r, pairSeries.bin_search_left_bound 2 = some l →
      pairSeries.bin_search_right_bound 3 = some r → r < l →
      pairSeries.slice_by_coord 2 3 = some (some [])) ∧
    pairSeries.slice_by_coord 2 3 ≠ none :=
  c2_slice_none_only_on_missing_bound pairSeries 2 3
    (sortedCoords_of_pairwise _ (by norm_num [pairSeries, List.pairwise_cons]))
    (by simp [pairSeries]) (by norm_num)


/-- Concrete seven-point series of the spec scenario for C7. -/
def demoSeries : DataSet :=
  { name := "test", data_points := [⟨1,0⟩,⟨2,0⟩,⟨2,0⟩,⟨4,0⟩,⟨5,0⟩,⟨6,0⟩,⟨7,0⟩],
    meta := ⟨0,0,0,0,0⟩, rgb := (255,255,255), alpha := AnimatedNumber.new 1 }

set_option maxHeartbeats 2000000 in
/-- C7: on sorted data with start at most end, every successful
slice_by_coord splits the series into a prefix strictly below start, the
returned sub-range inside [start, end], and a suffix strictly above end;
and on the concrete series [(1,0),(2,0),(2,0),(4,0),(5,0),(6,0),(7,0)] the
window [1.5, 4.2] yields exactly the points at coordinates [2,2,4]. -/
theorem c7_slice_window_characterization :
    (∀ (ds : DataSet) (s e : ℚ), SortedCoords ds.data_points → s ≤ e →
      ∀ sub, ds.slice_by_coord s e = some (some sub) →
        ∃ pre suf, ds.data_points = pre ++ sub ++ suf ∧
          (∀ p ∈ pre, p.coord < s) ∧
          (∀ p ∈ sub, s ≤ p.coord ∧ p.coord ≤ e) ∧
          (∀ p ∈ suf, e < p.coord)) ∧
    demoSeries.slice_by_coord (3/2) (21/5) =
      some (some [⟨2,0⟩,⟨2,0⟩,⟨4,0⟩]) := by
  constructor
  · intro ds s e hs hse sub hsub
    by_cases hne : ds.data_points = []
    · exfalso
      have hLnone : ds.bin_search_left_bound s = none := by
        simp [DataSet.bin_search_left_bound, hne]
      simp [DataSet.slice_by_coord, hLnone] at hsub
    · cases hleft : ds.bin_search_left_bound s with
      | none => exfalso; simp [DataSet.slice_by_coord, hleft] at hsub
      | some l =>
        cases hright : ds.bin_search_right_bound e with
        | none => exfalso; simp [DataSet.slice_by_coord, hleft, hright] at hsub
        | some r =>
          obtain ⟨hlr1, hr1len⟩ :=
            slice_bounds_compatible ds s e hs hne hse l r hleft hright
          have hL := bin_search_left_bound_spec ds s hs hne
          have hR := bin_search_right_bound_spec ds e hs hne
          rw [hleft] at hL
          rw [hright] at hR
          simp only [IsLeftBoundRes] at hL
          simp only [IsRightBoundRes] at hR
          obtain ⟨hllen, hsl, hbelow⟩ := hL
          obtain ⟨hrlen, hre, habove⟩ := hR
          have hsub2 : sub = (ds.data_points.drop l).take (r + 1 - l) := by
            simp only [DataSet.slice_by_coord, hleft, hright,
              DataSet.rustSliceRange] at hsub
            rw [if_pos ⟨hlr1, hr1len⟩] at hsub
            simp only [Option.map_some', Option.some.injEq] at hsub
            exact hsub.symm
          refine ⟨ds.data_points.take l, ds.data_points.drop (r + 1),
            ?_, ?_, ?_, ?_⟩
          · rw [hsub2]
            have h2 : (ds.data_points.drop l).drop (r + 1 - l) =
                ds.data_points.drop (r + 1) := by
              rw [List.drop_drop]
              congr 1
              omega
            rw [List.append_assoc, ← h2, List.take_append_drop,
              List.take_append_drop]
          · intro p hp
            obtain ⟨i, hi, hpi⟩ := List.mem_iff_getElem.mp hp
            rw [List.length_take] at hi
            have hil : i < l ∧ i < ds.data_points.length := Nat.lt_min.mp hi
            have hil2 : i < ds.data_points.length := hil.2
            have hpe : ds.data_points[i] = p := by
              rw [List.getElem_take] at hpi
              exact hpi
            have hc := hbelow i hil.1
            rw [coordAt_eq_getElem _ _ hil2] at hc
            rw [← hpe]
            exact hc
          · intro p hp
            rw [hsub2] at hp
            obtain ⟨j, hj, hpj⟩ := List.mem_iff_getElem.mp hp
            rw [List.length_take, List.length_drop] at hj
            have hj2 : j < r + 1 - l ∧ j < ds.data_points.length - l :=
              Nat.lt_min.mp hj
            have hidx : l + j ≤ r := by omega
            have hidxlen : l + j < ds.data_points.length := by omega
            have hpe : ds.data_points[l + j] = p := by
              rw [List.getElem_take, List.getElem_drop] at hpj
              exact hpj
            have h1 : s ≤ DataSet.coordAt ds.data_points l := hsl
            have h2 : DataSet.coordAt ds.data_points l ≤
                DataSet.coordAt ds.data_points (l + j) :=
              hs l (l + j) (by omega) hidxlen
            have h3 : DataSet.coordAt ds.data_points (l + j) ≤
                DataSet.coordAt ds.data_points r :=
              hs (l + j) r hidx hrlen
            have h4 : DataSet.coordAt ds.data_points r ≤ e := hre
            rw [coordAt_eq_getElem _ _ hidxlen] at h2 h3
            rw [← hpe]
            exact ⟨le_trans h1 h2, le_trans h3 h4⟩
          · intro p hp
            obtain ⟨j, hj, hpj⟩ := List.mem_iff_getElem.mp hp
            rw [List.length_drop] at hj
            have hidxlen : r + 1 + j < ds.data_points.length := by omega
            have hpe : ds.data_points[r + 1 + j] = p := by
              rw [List.getElem_drop] at hpj
              exact hpj
            have hc := habove (r + 1 + j) (by omega) hidxlen
            rw [coordAt_eq_getElem _ _ hidxlen] at hc
            rw [← hpe]
            exact hc
  · have hl : demoSeries.bin_search_left_bound (3/2) = some 1 := by
      norm_num [demoSeries, DataSet.bin_search_left_bound, DataSet.lbLoop,
        DataSet.coordAt, List.get?]
    have hr : demoSeries.bin_search_right_bound (21/5) = some 3 := by
      norm_num [demoSeries, DataSet.bin_search_right_bound, DataSet.rbLoop,
        DataSet.coordAt, List.get?]
    rw [DataSet.slice_by_coord, hl, hr]
    norm_num [demoSeries, DataSet.rustSliceRange]

/-- C7 witness: the general characterization applied to the concrete spec
scenario, using the concrete slice result proved in the same theorem. -/
theorem c7_witness :
    ∃ pre suf,
      demoSeries.data_points =
        pre ++ [⟨2,0⟩,⟨2,0⟩,⟨4,0⟩] ++ suf ∧
      (∀ p ∈ pre, p.coord < 3/2) ∧
      (∀ p ∈ [(⟨2,0⟩ : DataPoint),⟨2,0⟩,⟨4,0⟩],
        3/2 ≤ p.coord ∧ p.coord ≤ 21/5) ∧
      (∀ p ∈ suf, 21/5 < p.coord) :=
  c7_slice_window_characterization.1 demoSeries (3/2) (21/5)
    (sortedCoords_of_pairwise _ (by norm_num [demoSeries, List.pairwise_cons]))
    (by norm_num) _ c7_slice_window_characterization.2

/-! ## Viewport: src/camera.rs, Camera

Only the state read or written by zoom_by_coords and move_to is modelled:
the four animated bounds and the dirty flag (the screen area, grids and
chart configuration are drawing state untouched by these two operations).
Content is reduced to its data_sets field, the only one these operations
read. -/

structure Content where
  data_sets : List DataSet

structure Camera where
  coord : AnimatedNumber
  coord_range : AnimatedNumber
  value : AnimatedNumber
  value_range : AnimatedNumber
  dirty : Bool

/-- Largest finite f64 (Rust f64::MAX), exactly. -/
def f64MAX : ℚ := 2 ^ 1024 - 2 ^ 971

/-- Smallest finite f64 (Rust f64::MIN = -f64::MAX). -/
def f64MIN : ℚ := -(2 ^ 1024 - 2 ^ 971)

/-- Scan of the visible data sets performed by Camera::zoom_by_coords:
running (value_min, value_max, number_of_points) over the slices of every
data set whose alpha end value is positive; a panic inside slice_by_coord
propagates as none. -/
def zoomScan (sets : List DataSet) (cs ce : ℚ) :
    Option (ℚ × ℚ × ℕ) :=
  sets.foldl
    (fun acc ds =>
      acc.bind fun st =>
        if 0 < ds.alpha.get_end_value then
          match ds.slice_by_coord cs ce with
          | none => none
          | some none => some st
          | some (some pts) =>
            some (pts.foldl (fun q p => (min q.1 p.value, max q.2.1 p.value,
              q.2.2)) (st.1, st.2.1, Nat.max st.2.2 pts.length))
        else some st)
    (some (f64MAX, f64MIN, 0))

/-- Rust Camera::zoom_by_coords.  Panics (none) when coord_end is not
greater than coord_start; otherwise, when more than one point lies in the
window, re-targets the four animated bounds and raises the dirty flag, and
when at most one point lies there leaves the camera untouched. -/
def zoom_by_coords (cam : Camera) (content : Content) (coord_start coord_end : ℚ)
    (time_us : Option ℚ) : Option Camera :=
  if coord_end ≤ coord_start then none
  else
    (zoomScan content.data_sets coord_start coord_end).map fun st =>
      if 1 < st.2.2 then
        { cam with
          dirty := true,
          coord := cam.coord.set_value ((coord_start + coord_end) * (1/2)) time_us,
          coord_range := cam.coord_range.set_value (coord_end - coord_start) time_us,
          value_range := cam.value_range.set_value (st.2.1 - st.1) time_us,
          value := cam.value.set_value ((st.1 + st.2.1) * (1/2)) time_us }
      else cam

/-- Scan of the visible data sets performed by Camera::move_to (same as the
zoom scan but without the point count). -/
def moveScan (sets : List DataSet) (cs ce : ℚ) : Option (ℚ × ℚ) :=
  sets.foldl
    (fun acc ds =>
      acc.bind fun st =>
        if 0 < ds.alpha.get_end_value then
          match ds.slice_by_coord cs ce with
          | none => none
          | some none => some st
          | some (some pts) =>
            some (pts.foldl (fun q p => (min q.1 p.value, max q.2 p.value)) st)
        else some st)
    (some (f64MAX, f64MIN))

/-- Rust Camera::move_to: unconditionally raises the dirty flag and
re-targets the coordinate center, then recomputes the value window from the
points inside the moved window (the sentinel f64 extremes when no point is
inside) and re-targets value_range and value. -/
def move_to (cam : Camera) (content : Content) (coord_center : ℚ)
    (time_us : Option ℚ) : Option Camera :=
  let cam1 := { cam with
    dirty := true,
    coord := cam.coord.set_value coord_center time_us }
  let coord_half_range := cam.coord_range.get_end_value * (1/2)
  let coord_start := coord_center - coord_half_range
  let coord_end := coord_center + coord_half_range
  (moveScan content.data_sets coord_start coord_end).map fun st =>
    { cam1 with
      value_range := cam1.value_range.set_value (st.2 - st.1) time_us,
      value := cam1.value.set_value ((st.1 + st.2) * (1/2)) time_us }

/-- Concrete camera used by the C4 counterexample and witness: all four
bounds settled at 0, dirty flag clear. -/
def idleCamera : Camera :=
  { coord := AnimatedNumber.new 0, coord_range := AnimatedNumber.new 0,
    value := AnimatedNumber.new 0, value_range := AnimatedNumber.new 0,
    dirty := false }

/-- C4 counterexample: with no data set at all (zero points fall in any
window), move_to still flips the dirty flag from false to true (and
re-targets the coordinate bound), so the move operation is not a no-op when
fewer than 2 points lie in the window. -/
theorem c4_counterexample :
    (move_to idleCamera ⟨[]⟩ 5 (some 0)).map Camera.dirty = some true ∧
    idleCamera.dirty = false := by
  constructor
  · norm_num [move_to, moveScan, idleCamera, AnimatedNumber.new,
      AnimatedNumber.custom, AnimatedNumber.get_end_value]
  · rfl

/-- C4 as amended: zoom_by_coords with a proper window containing at most
one data point leaves the whole camera (all four bounds and the dirty flag)
unchanged; move_to has no such guard and always mutates. -/
theorem c4_zoom_noop_on_degenerate_window
    (cam : Camera) (content : Content) (cs ce : ℚ) (t : Option ℚ)
    (hwin : cs < ce) (vmin vmax : ℚ) (n : ℕ)
    (hscan : zoomScan content.data_sets cs ce = some (vmin, vmax, n))
    (hn : n ≤ 1) :
    zoom_by_coords cam content cs ce t = some cam := by
  rw [zoom_by_coords, if_neg (not_le.mpr hwin), hscan]
  simp only [Option.map_some']
  rw [if_neg (by omega)]

/-- C4 witness: the amended no-op statement on the concrete idle camera and
empty content. -/
theorem c4_witness :
    zoom_by_coords idleCamera ⟨[]⟩ 0 1 (some 0) = some idleCamera :=
  c4_zoom_noop_on_degenerate_window idleCamera ⟨[]⟩ 0 1 (some 0)
    (by norm_num) f64MAX f64MIN 0 (by norm_num [zoomScan]) (by norm_num)


/-! ## Construction claims: src/data_set.rs, DataSet::new -/

/-- Helper: the percentile computation succeeds on every non-empty value
column for a percentile between 0 and 1. -/
lemma percentile_some (values : List ℚ) (p : ℚ)
    (_hp0 : 0 ≤ p) (hp1 : p ≤ 1) (hne : values ≠ []) :
    ∃ v, DataSetMeta.percentile values p (values.length - 1) = some v := by
  have hlen : 0 < values.length := List.length_pos.mpr hne
  have hle : DataSetMeta.rustToUsize ((values.length - 1 : ℕ) * p) ≤
      values.length - 1 := by
    unfold DataSetMeta.rustToUsize
    have h1 : ((values.length - 1 : ℕ) : ℚ) * p ≤ ((values.length - 1 : ℕ) : ℚ) :=
      mul_le_of_le_one_right (Nat.cast_nonneg _) hp1
    have h2 : ⌊((values.length - 1 : ℕ) : ℚ) * p⌋ ≤ ((values.length - 1 : ℕ) : ℤ) := by
      calc ⌊((values.length - 1 : ℕ) : ℚ) * p⌋
          ≤ ⌊((values.length - 1 : ℕ) : ℚ)⌋ := Int.floor_le_floor h1
        _ = ((values.length - 1 : ℕ) : ℤ) := Int.floor_natCast _
    exact Int.toNat_le.mpr h2
  unfold DataSetMeta.percentile
  dsimp only
  set li := DataSetMeta.rustToUsize (((values.length - 1 : ℕ) : ℚ) * p) with hli
  have hlival : values.get? li = some (values.get ⟨li, by omega⟩) :=
    List.get?_eq_get (by omega)
  rw [hlival]
  dsimp only
  by_cases heq : li = values.length - 1
  · rw [if_pos heq]
    exact ⟨_, rfl⟩
  · rw [if_neg heq]
    have hlt : li + 1 < values.length := by omega
    have h2 : values.get? (li + 1) = some (values.get ⟨li + 1, hlt⟩) :=
      List.get?_eq_get hlt
    rw [h2]
    exact ⟨_, rfl⟩

/-- Helper: the meta computation succeeds on every non-empty input. -/
lemma from_data_points_some (points : List DataPoint) (hne : points ≠ []) :
    ∃ m, DataSetMeta.from_data_points points = some m := by
  have hvlen : (List.insertionSort (· ≤ ·) (points.map DataPoint.value)).length =
      points.length := by
    rw [List.length_insertionSort, List.length_map]
  have hvne : List.insertionSort (· ≤ ·) (points.map DataPoint.value) ≠ [] := by
    intro h
    have := hvlen
    rw [h] at this
    exact hne (List.length_eq_zero.mp this.symm)
  have hlen : 0 < (List.insertionSort (· ≤ ·) (points.map DataPoint.value)).length :=
    List.length_pos.mpr hvne
  obtain ⟨v25, h25⟩ := percentile_some _ (1/4) (by norm_num) (by norm_num) hvne
  obtain ⟨v50, h50⟩ := percentile_some _ (1/2) (by norm_num) (by norm_num) hvne
  obtain ⟨v75, h75⟩ := percentile_some _ (3/4) (by norm_num) (by norm_num) hvne
  have h0 : (List.insertionSort (· ≤ ·) (points.map DataPoint.value)).get? 0 =
      some ((List.insertionSort (· ≤ ·) (points.map DataPoint.value)).get ⟨0, hlen⟩) :=
    List.get?_eq_get hlen
  have hmx : (List.insertionSort (· ≤ ·) (points.map DataPoint.value)).get?
      ((List.insertionSort (· ≤ ·) (points.map DataPoint.value)).length - 1) =
      some ((List.insertionSort (· ≤ ·) (points.map DataPoint.value)).get
        ⟨(List.insertionSort (· ≤ ·) (points.map DataPoint.value)).length - 1,
          by omega⟩) :=
    List.get?_eq_get (by omega)
  unfold DataSetMeta.from_data_points
  dsimp only
  rw [h0, h25, h50, h75, hmx]
  exact ⟨_, rfl⟩

/-- C5 counterexample: the input [(1,5),(1,7)] contains a duplicate
coordinate, yet DataSet::new succeeds and the constructed series stores both
duplicate points verbatim, so construction does not reject duplicates. -/
theorem c5_counterexample :
    ∃ ds, DataSet.new ("s") (1,2,3) [⟨1,5⟩,⟨1,7⟩] = some ds ∧
      ds.data_points = [⟨1,5⟩,⟨1,7⟩] := by
  obtain ⟨m, hm⟩ := from_data_points_some [⟨1,5⟩,⟨1,7⟩] (by simp)
  refine ⟨⟨"s", [⟨1,5⟩,⟨1,7⟩], m, (1,2,3), AnimatedNumber.new 1⟩, ?_, rfl⟩
  rw [DataSet.new, hm]
  rfl

/-- C5 as amended: DataSet::new performs no validation at all: on every
non-empty input list (duplicate coordinates or not) it succeeds and stores
the points verbatim; the only failing input is the empty list, on which the
meta computation panics. -/
theorem c5_new_never_validates (name : String) (rgb : ℕ × ℕ × ℕ)
    (points : List DataPoint) (hne : points ≠ []) :
    ∃ ds, DataSet.new name rgb points = some ds ∧ ds.data_points = points := by
  obtain ⟨m, hm⟩ := from_data_points_some points hne
  refine ⟨⟨name, points, m, rgb, AnimatedNumber.new 1⟩, ?_, rfl⟩
  rw [DataSet.new, hm]
  rfl

/-- C5 witness: the amended statement on the concrete duplicate input. -/
theorem c5_witness :
    ∃ ds, DataSet.new ("w") (0,0,0) [⟨1,5⟩,⟨1,7⟩,⟨1,9⟩] = some ds ∧
      ds.data_points = [⟨1,5⟩,⟨1,7⟩,⟨1,9⟩] :=
  c5_new_never_validates ("w") (0,0,0) [⟨1,5⟩,⟨1,7⟩,⟨1,9⟩] (by simp)


/-! ## Tick generator: src/grid.rs, Grid::get_ticks, lattice enumeration

The modelled part is the tick-emission loop (the per-generation lattice
enumeration with edge de-emphasis); the generation bookkeeping that precedes
it and the final sort/dedup step do not move any tick position.  Rust
f64 % is fmod, whose exact value is a - p * trunc(a / p). -/

/-- Truncation toward zero of a rational, as Rust f64 trunc. -/
def truncQ (q : ℚ) : ℤ := if q < 0 then ⌈q⌉ else ⌊q⌋

/-- Exact value of the Rust remainder operator a % p on f64 (fmod). -/
def rustRem (a p : ℚ) : ℚ := a - p * (truncQ (a / p) : ℚ)

structure Tick where
  normalized_value : ℚ
  alpha : ℚ
  end_alpha : ℚ
  value : ℚ
  deriving Repr, DecidableEq

structure TickGeneration where
  period : ℚ
  alpha : AnimatedNumber
  deriving Repr, DecidableEq

/-- First lattice position emitted for a generation (Rust:
normalized_min_value - (normalized_min_value - grid_base) % period +
period). -/
def startTick (nmin base p : ℚ) : ℚ := nmin - rustRem (nmin - base) p + p

/-- Rust while-loop pushing ticks from the first lattice point until
normalized_max_value, with the half-alpha de-emphasis within a quarter
period of either window edge; explicit fuel mirrors the loop. -/
def tickLoop (nmax p a ea lb rb : ℚ) : ℕ → ℚ → List Tick
  | 0, _ => []
  | fuel + 1, v =>
    if v < nmax then
      { normalized_value := v,
        alpha := if v < lb ∨ rb < v then a * (1/2) else a,
        end_alpha := ea, value := 0 } ::
      tickLoop nmax p a ea lb rb fuel (v + p)
    else []

/-- Tick emission for one generation (Rust grid.rs lines 118 to 140):
query the fade alpha (a mutating read), compute the de-emphasis bounds and
enumerate the lattice. -/
def emitGenTicks (fuel : ℕ) (time nmin nmax base : ℚ) (g : TickGeneration) :
    List Tick × TickGeneration :=
  let r := g.alpha.get_value time
  let a := r.1
  let ea := r.2.get_end_value
  let rb := nmax - g.period * (1/4)
  let lb := nmin + g.period * (1/4)
  (tickLoop nmax g.period a ea lb rb fuel (startTick nmin base g.period),
   { g with alpha := r.2 })

/-- Tick emission across all live generations (the loop of Rust grid.rs
lines 117 to 141), threading the mutated generation states. -/
def emitTicks (fuel : ℕ) (time nmin nmax base : ℚ) :
    List TickGeneration → List Tick × List TickGeneration
  | [] => ([], [])
  | g :: gs =>
    let rg := emitGenTicks fuel time nmin nmax base g
    let rest := emitTicks fuel time nmin nmax base gs
    (rg.1 ++ rest.1, rg.2 :: rest.2)

/-- Helper: the Rust remainder is strictly below a positive modulus. -/
lemma rustRem_lt (a p : ℚ) (hp : 0 < p) : rustRem a p < p := by
  unfold rustRem truncQ
  have hpa : p * (a / p) = a := by field_simp
  by_cases hq : a / p < 0
  · rw [if_pos hq]
    have h1 : a / p ≤ (⌈a / p⌉ : ℚ) := Int.le_ceil _
    have h2 : p * (a / p) ≤ p * (⌈a / p⌉ : ℚ) :=
      mul_le_mul_of_nonneg_left h1 (le_of_lt hp)
    rw [hpa] at h2
    linarith
  · rw [if_neg hq]
    have h1 : a / p - (⌊a / p⌋ : ℚ) < 1 := by
      have h := Int.fract_lt_one (a / p)
      rw [Int.fract] at h
      exact h
    have h2 : p * (a / p - (⌊a / p⌋ : ℚ)) < p * 1 :=
      (mul_lt_mul_left hp).mpr h1
    rw [mul_sub, hpa, mul_one] at h2
    linarith

/-- Helper: the first emitted lattice position is at least
normalized_min - period. -/
lemma startTick_ge (nmin base p : ℚ) (hp : 0 < p) :
    nmin - p ≤ startTick nmin base p := by
  have h := rustRem_lt (nmin - base) p hp
  unfold startTick
  linarith

/-- Helper: every tick emitted by the lattice loop lies at or after the
starting position and strictly before normalized_max. -/
lemma tickLoop_mem_bounds (nmax p a ea lb rb : ℚ) (hp : 0 < p) :
    ∀ fuel v t, t ∈ tickLoop nmax p a ea lb rb fuel v →
      v ≤ t.normalized_value ∧ t.normalized_value < nmax := by
  intro fuel
  induction fuel with
  | zero => intro v t ht; simp [tickLoop] at ht
  | succ fuel ih =>
    intro v t ht
    rw [tickLoop] at ht
    by_cases hv : v < nmax
    · rw [if_pos hv] at ht
      rcases List.mem_cons.mp ht with h | h
      · subst h
        exact ⟨le_refl v, hv⟩
      · obtain ⟨h1, h2⟩ := ih (v + p) t h
        exact ⟨by linarith, h2⟩
    · rw [if_neg hv] at ht
      simp at ht

/-- C9: every tick returned by the lattice enumeration of get_ticks lies
within [normalized_min - period, normalized_max + period] where period is
the emitting generation's period; no tick falls strictly outside that
padded window (in fact all ticks lie strictly inside (normalized_min,
normalized_max)). -/
theorem c9_ticks_within_padded_window (fuel : ℕ) (time nmin nmax base : ℚ)
    (gens : List TickGeneration) (hp : ∀ g ∈ gens, 0 < g.period) :
    ∀ t ∈ (emitTicks fuel time nmin nmax base gens).1,
      ∃ g ∈ gens, nmin - g.period ≤ t.normalized_value ∧
        t.normalized_value ≤ nmax + g.period := by
  induction gens with
  | nil => intro t ht; simp [emitTicks] at ht
  | cons g gs ih =>
    intro t ht
    rw [emitTicks] at ht
    rcases List.mem_append.mp ht with h | h
    · have hg : 0 < g.period := hp g (List.mem_cons_self g gs)
      obtain ⟨h1, h2⟩ := tickLoop_mem_bounds nmax g.period _ _ _ _ hg fuel _ t h
      have h0 := startTick_ge nmin base g.period hg
      refine ⟨g, List.mem_cons_self g gs, by linarith, by linarith⟩
    · obtain ⟨g2, hg2, hb⟩ :=
        ih (fun g3 hg3 => hp g3 (List.mem_cons_of_mem g hg3)) t h
      exact ⟨g2, List.mem_cons_of_mem g hg2, hb⟩

/-- Concrete generation used by the C9 witness. -/
def demoGeneration : TickGeneration :=
  { period := 1/2, alpha := AnimatedNumber.new 1 }

/-- C9 witness: on the single half-period generation over the window [0,1]
with grid base -1/4, the emitted tick at position 1/4 is inside the padded
window of its generation. -/
theorem c9_witness :
    ∃ g ∈ [demoGeneration],
      (0 : ℚ) - g.period ≤ (⟨1/4, 1, 1, 0⟩ : Tick).normalized_value ∧
      (⟨1/4, 1, 1, 0⟩ : Tick).normalized_value ≤ 1 + g.period :=
  c9_ticks_within_padded_window 3 0 0 1 (-(1/4)) [demoGeneration]
    (by
      intro g hg
      rcases List.mem_singleton.mp hg with rfl
      norm_num [demoGeneration])
    ⟨1/4, 1, 1, 0⟩
    (by
      norm_num [emitTicks, emitGenTicks, tickLoop, startTick, rustRem, truncQ,
        demoGeneration, AnimatedNumber.new, AnimatedNumber.custom,
        AnimatedNumber.get_value, AnimatedNumber.get_end_value])


/-! ## Logarithmic scale: src/scale.rs, LogScale

Values pass through log10, so this part is modelled over the reals with
Real.logb 10.  ContentBounds carries the four global-bound fields of the
params.rs Content struct that the scale constructors read; recip is the
real inverse (the f64 code produces an infinity on a zero log range, which
the amended theorem excludes via a positive log range). -/

structure ContentBounds where
  global_coord_min : ℝ
  global_coord_max : ℝ
  global_value_min : ℝ
  global_value_max : ℝ

/-- Rust const MIN_VALUE_TO_LOG. -/
def MIN_VALUE_TO_LOG : ℝ := 1000

/-- Rust const MIN_LOG_VALUE. -/
def MIN_LOG_VALUE : ℝ := 3

/-- Rust f64::log10. -/
noncomputable def log10 (x : ℝ) : ℝ := Real.logb 10 x

structure LogScale where
  coord_min : ℝ
  coord_max : ℝ
  coord_range : ℝ
  coord_range_recip : ℝ
  value_min : ℝ
  value_max : ℝ
  value_global_min : ℝ
  value_log_base : ℝ
  value_log_range : ℝ
  value_log_range_recip : ℝ

/-- Rust LogScale::new. -/
noncomputable def LogScale.new (c : ContentBounds) : LogScale :=
  let coord_range := c.global_coord_max - c.global_coord_min
  let value_min_log := MIN_LOG_VALUE
  let value_max_log :=
    log10 (c.global_value_max - c.global_value_min + MIN_VALUE_TO_LOG)
  { coord_min := c.global_coord_min
    coord_max := c.global_coord_max
    coord_range := coord_range
    coord_range_recip := coord_range⁻¹
    value_min := c.global_value_min
    value_max := c.global_value_max
    value_global_min := c.global_value_min
    value_log_base := value_min_log
    value_log_range := value_max_log - value_min_log
    value_log_range_recip := (value_max_log - value_min_log)⁻¹ }

/-- Rust LogScale::reframe (Scale impl).  Panics (none) on a zero coordinate
or value span.  Note that value_min_log is computed from the PREVIOUS
stored self.value_min, not from the value_min argument: self.value_min is
only overwritten afterwards. -/
noncomputable def LogScale.reframe (s : LogScale)
    (coord_min coord_max value_min value_max : ℝ) : Option LogScale :=
  if coord_max - coord_min = 0 then none
  else if value_max - value_min = 0 then none
  else
    let value_min_log := log10 (s.value_min - s.value_global_min + MIN_VALUE_TO_LOG)
    let value_max_log := log10 (value_max - s.value_global_min + MIN_VALUE_TO_LOG)
    some
      { coord_min := coord_min
        coord_max := coord_max
        coord_range := coord_max - coord_min
        coord_range_recip := (coord_max - coord_min)⁻¹
        value_min := value_min
        value_max := value_max
        value_global_min := s.value_global_min
        value_log_base := value_min_log
        value_log_range := value_max_log - value_min_log
        value_log_range_recip := (value_max_log - value_min_log)⁻¹ }

/-- Rust LogScale::normalize_value. -/
noncomputable def LogScale.normalize_value (s : LogScale) (value : ℝ) : ℝ :=
  (log10 (value - s.value_global_min + MIN_VALUE_TO_LOG) - s.value_log_base)
    * s.value_log_range_recip

/-- Helper: log10 of a natural power of ten. -/
lemma log10_pow_ten (n : ℕ) : log10 ((10 : ℝ) ^ n) = n := by
  have hpos : 0 < Real.log 10 := Real.log_pos (by norm_num)
  rw [log10, Real.logb, Real.log_pow]
  field_simp

/-- Concrete global bounds used by the C3 counterexample and witness. -/
def demoBounds : ContentBounds :=
  { global_coord_min := 0, global_coord_max := 1,
    global_value_min := 0, global_value_max := 9000 }

/-- C3 counterexample: global value minimum m = 0; reframe first to the
valid window with values [9000, 10000], then to the valid window with
values [0, 99000].  The second reframe anchors value_log_base at the
previously stored window minimum 9000 (log10(10000) = 4), so
normalize_value(m) = (log10(1000) - 4) / (log10(100000) - 4) = -1, not 0:
the claimed identity fails after a window sequence whose stored minimum
left the global minimum. -/
theorem c3_counterexample :
    (((LogScale.new demoBounds).reframe 0 1 9000 10000).bind
        (fun s1 => s1.reframe 0 1 0 99000)).map
      (fun s2 => s2.normalize_value 0) = some (-1) ∧
    (((LogScale.new demoBounds).reframe 0 1 9000 10000).bind
        (fun s1 => s1.reframe 0 1 0 99000)).map
      (fun s2 => s2.normalize_value 0) ≠ some 0 := by
  have h3 : log10 ((1000 : ℝ)) = 3 := by
    have h := log10_pow_ten 3
    norm_num at h
    exact h
  have h4 : log10 ((10000 : ℝ)) = 4 := by
    have h := log10_pow_ten 4
    norm_num at h
    exact h
  have h5 : log10 ((100000 : ℝ)) = 5 := by
    have h := log10_pow_ten 5
    norm_num at h
    exact h
  have hmain : (((LogScale.new demoBounds).reframe 0 1 9000 10000).bind
        (fun s1 => s1.reframe 0 1 0 99000)).map
      (fun s2 => s2.normalize_value 0) = some (-1) := by
    norm_num [LogScale.new, LogScale.reframe, LogScale.normalize_value,
      demoBounds, MIN_VALUE_TO_LOG, MIN_LOG_VALUE, h3, h4, h5]
  refine ⟨hmain, ?_⟩
  rw [hmain]
  norm_num

/-- C3 as amended: normalize_value(m) = 0 does hold for a reframe performed
while the stored value_min still equals the global minimum m (as is the
case at construction and on the first reframe), with a window maximum
above m so the log range is positive (finite f64 reciprocal); it does not
hold after arbitrary reframe sequences, as the counterexample shows. -/
theorem c3_normalize_global_min_zero_when_anchored
    (s : LogScale) (cmin cmax vmin vmax : ℝ) (s2 : LogScale)
    (hanchor : s.value_min = s.value_global_min)
    (hvmax : s.value_global_min < vmax)
    (h : s.reframe cmin cmax vmin vmax = some s2) :
    s2.normalize_value s.value_global_min = 0 ∧ 0 < s2.value_log_range := by
  have h3 : log10 ((1000 : ℝ)) = 3 := by
    have hh := log10_pow_ten 3
    norm_num at hh
    exact hh
  rw [LogScale.reframe] at h
  by_cases h1 : cmax - cmin = 0
  · rw [if_pos h1] at h
    exact Option.noConfusion h
  rw [if_neg h1] at h
  by_cases h2 : vmax - vmin = 0
  · rw [if_pos h2] at h
    exact Option.noConfusion h
  rw [if_neg h2] at h
  have hrec := Option.some.inj h
  subst hrec
  constructor
  · simp only [LogScale.normalize_value, hanchor, sub_self, zero_add,
      MIN_VALUE_TO_LOG, h3, zero_mul]
  · simp only [hanchor, sub_self, zero_add]
    rw [MIN_VALUE_TO_LOG, h3, log10]
    have hgt : (1000 : ℝ) < vmax - s.value_global_min + 1000 := by linarith
    have := Real.logb_lt_logb (b := 10) (by norm_num) (by norm_num) hgt
    rw [show Real.logb 10 1000 = 3 by rw [← h3, log10]] at this
    linarith

/-- C3 witness: the amended statement on the freshly constructed demo scale
reframed once to the window with values [50, 9000]. -/
theorem c3_witness :
    ∃ s2, (LogScale.new demoBounds).reframe 0 1 50 9000 = some s2 ∧
      s2.normalize_value ((LogScale.new demoBounds).value_global_min) = 0 ∧
      0 < s2.value_log_range := by
  rcases hopt : (LogScale.new demoBounds).reframe 0 1 50 9000 with _ | s2
  · exfalso
    rw [LogScale.reframe, if_neg (by norm_num), if_neg (by norm_num)] at hopt
    exact Option.noConfusion hopt
  · exact ⟨s2, rfl,
      c3_normalize_global_min_zero_when_anchored (LogScale.new demoBounds)
        0 1 50 9000 s2 rfl
        (by norm_num [LogScale.new, demoBounds]) hopt⟩

end Plotica
